import Mathlib

/-!
Shallow embedding of the configservice repository (src/configservice/src/configservice.rs
and src/configservice/src/main.rs).

The store is a `List Config` (the Rust `Mutex<Vec<Config>>` contents); every handler
is embedded as a pure function from its inputs and the current store contents to an
HTTP reply (status code plus JSON body) and, for mutating handlers, the new store
contents.  The lock itself serializes access in the Rust code, so each handler is a
single atomic store transformation, which is exactly what the pure functions model.
-/

namespace ConfigService

/-- The `Config` record of `configservice.rs` (fields `id : i32`, `desc`, `key`,
`value`).  `i32` is modelled as `Int`; the code only ever compares ids for
equality, so wrap-around behaviour is irrelevant. -/
structure Config where
  id : Int
  desc : String
  key : String
  value : String
deriving DecidableEq, Repr

/-- The `ConfigUpdateRequest` of `configservice.rs`: optional `value`, optional
`secret`. -/
structure ConfigUpdateRequest where
  value : Option String
  secret : Option Bool
deriving DecidableEq, Repr

/-- The `ErrorResponse` enum of `configservice.rs`. -/
inductive ErrorResponse where
  | NotFound : String → ErrorResponse
  | Conflict : String → ErrorResponse
  | Unauthorized : String → ErrorResponse
deriving DecidableEq, Repr

/-- JSON bodies the handlers produce: a single config, a list of configs, an
error value, or an empty body (`HttpResponse::Ok().finish()`). -/
inductive Body where
  | config : Config → Body
  | configs : List Config → Body
  | error : ErrorResponse → Body
  | empty : Body
deriving DecidableEq, Repr

/-- An HTTP reply: status code and JSON body. -/
structure HttpReply where
  status : Nat
  body : Body
deriving DecidableEq, Repr

/-- `get_configs` (GET /config): clones the stored vector and returns it as a 200
JSON array. -/
def get_configs (configs : List Config) : HttpReply :=
  ⟨200, Body.configs configs⟩

/-- `create_config` (POST /config): if some stored record has the posted id,
respond 409 Conflict with detail `id = <n>` and leave the store alone; otherwise
push the new record and respond 200 with it. -/
def create_config (config : Config) (configs : List Config) :
    HttpReply × List Config :=
  match configs.find? (fun existing => existing.id == config.id) with
  | some existing =>
      (⟨409, Body.error (ErrorResponse.Conflict ("id = " ++ toString existing.id))⟩,
        configs)
  | none =>
      (⟨200, Body.config config⟩, configs ++ [config])

/-- `delete_config` (DELETE /config/{id}): rebuild the vector without the records
matching `id`; if the length did not change respond 404 NotFound, otherwise
replace the stored vector and respond 200 with an empty body. -/
def delete_config (id : Int) (configs : List Config) : HttpReply × List Config :=
  let new_configs := configs.filter (fun config => config.id != id)
  if new_configs.length == configs.length then
    (⟨404, Body.error (ErrorResponse.NotFound ("id = " ++ toString id))⟩, configs)
  else
    (⟨200, Body.empty⟩, new_configs)

/-- `get_config_by_id` (GET /config/{id}): first record whose id matches, as a
200 reply, else 404 NotFound with detail `id = <n>`. -/
def get_config_by_id (id : Int) (configs : List Config) : HttpReply :=
  match configs.find? (fun config => config.id == id) with
  | some config => ⟨200, Body.config config⟩
  | none => ⟨404, Body.error (ErrorResponse.NotFound ("id = " ++ toString id))⟩

/-- The body of the found branch of `update_config`: overwrite `value` when the patch
carries one, leave the record untouched otherwise (the `secret` field is never
consulted). -/
def applyPatch (req : ConfigUpdateRequest) (existing : Config) : Config :=
  match req.value with
  | some value => { existing with value := value }
  | none => existing

/-- `iter_mut().find_map(...)` of `update_config`: patch the first record whose
id matches, returning the new list and the updated record, or `none` when no
record matches. -/
def updateFirst (id : Int) (req : ConfigUpdateRequest) :
    List Config → Option (List Config × Config)
  | [] => none
  | c :: rest =>
    if c.id == id then
      some (applyPatch req c :: rest, applyPatch req c)
    else
      match updateFirst id req rest with
      | some (rest2, updated) => some (c :: rest2, updated)
      | none => none

/-- `update_config` (PUT /config/{id}): patch the first matching record in place
and respond 200 with it, or respond 404 NotFound with detail `id = <n>`. -/
def update_config (id : Int) (req : ConfigUpdateRequest) (configs : List Config) :
    HttpReply × List Config :=
  match updateFirst id req configs with
  | some (newConfigs, updated) => (⟨200, Body.config updated⟩, newConfigs)
  | none =>
      (⟨404, Body.error (ErrorResponse.NotFound ("id = " ++ toString id))⟩, configs)

/-- Does `needle` occur at the head of `haystack`? (character lists) -/
def charsMatchAt : List Char → List Char → Bool
  | [], _ => true
  | _ :: _, [] => false
  | a :: as, b :: bs => a == b && charsMatchAt as bs

/-- Does `needle` occur anywhere in `haystack`? Models Rust `str::contains`. -/
def charsContain (needle : List Char) : List Char → Bool
  | [] => charsMatchAt needle []
  | b :: bs => charsMatchAt needle (b :: bs) || charsContain needle bs

/-- `haystack.contains(needle)` on strings. -/
def stringContains (haystack needle : String) : Bool :=
  charsContain needle.data haystack.data

/-- An ASCII case folding (`Char.toLower` on each character).  It agrees with
Rust `str::to_lowercase` on ASCII input and serves as a concrete instantiation
of the folding parameter of `search_configs`; it is NOT the full Unicode
folding the standard library performs. -/
def toLowercase (s : String) : String :=
  ⟨s.data.map Char.toLower⟩

/-- `search_configs` (GET /config/search?value=X): keep the records whose
lower-cased `value` contains the lower-cased query, insertion order preserved,
always a 200 reply.  The case folding `low` models `str::to_lowercase`, a
standard-library collaborator whose Unicode table is not part of this
repository; the handler is this function applied to that table, so properties
proved for every `low` hold of the program. -/
def search_configs (low : String → String) (value : String)
    (configs : List Config) : HttpReply :=
  ⟨200, Body.configs (configs.filter (fun config =>
    stringContains (low config.value) (low value)))⟩

/-- The pre-shared key `API_KEY` of `main.rs`. -/
def API_KEY : String := "rust-rocks"

/-- Outcome of the api-key middleware: either an immediate 401 reply (the
downstream handler is never invoked) or the request is forwarded to it. -/
inductive GateOutcome where
  | rejected : HttpReply → GateOutcome
  | forwarded : GateOutcome
deriving DecidableEq, Repr

/-- `ApiKeyMiddleware::call` of `main.rs`, parameterized by `log_only` and by the
value of the `apikey` header (`none` when the header is absent).  In log-only
mode every case falls through to the downstream service; in enforcing mode a
missing or mismatched key yields a 401 Unauthorized reply. -/
def apiKeyGateCall (log_only : Bool) (header : Option String) : GateOutcome :=
  match header with
  | some key =>
    if key != API_KEY then
      if log_only then GateOutcome.forwarded
      else
        GateOutcome.rejected
          ⟨401, Body.error (ErrorResponse.Unauthorized "incorrect api key")⟩
    else GateOutcome.forwarded
  | none =>
    if log_only then GateOutcome.forwarded
    else
      GateOutcome.rejected
        ⟨401, Body.error (ErrorResponse.Unauthorized "missing api key")⟩

/-- A mutating request against the store: the three operations that can change
the stored vector. -/
inductive Op where
  | create : Config → Op
  | update : Int → ConfigUpdateRequest → Op
  | delete : Int → Op

/-- The store transformation performed by one mutating request. -/
def applyOp (configs : List Config) : Op → List Config
  | Op.create c => (create_config c configs).2
  | Op.update i r => (update_config i r configs).2
  | Op.delete i => (delete_config i configs).2

/-- Run a sequence of mutating requests from the empty store (the store the
process starts with: `ConfigStore::default()`). -/
def runOps (ops : List Op) : List Config :=
  ops.foldl applyOp []

/-- A read-only request: list, get-by-id, or search. -/
inductive ReadRequest where
  | list : ReadRequest
  | byId : Int → ReadRequest
  | search : String → ReadRequest

/-- A read-only handler holds the lock but never assigns through it: the store
contents after the call are the contents before it. -/
def handleRead (req : ReadRequest) (configs : List Config) :
    HttpReply × List Config :=
  match req with
  | ReadRequest.list => (get_configs configs, configs)
  | ReadRequest.byId i => (get_config_by_id i configs, configs)
  | ReadRequest.search s => (search_configs toLowercase s configs, configs)

/-! ### Helper lemmas about the embedded operations -/

theorem charsContain_nil_needle (l : List Char) : charsContain [] l = true := by
  cases l <;> rfl

theorem find_first_in_append {α : Type} (p : α → Bool) (pre : List α) (c : α)
    (post : List α) (hpre : ∀ x ∈ pre, p x = false) (hc : p c = true) :
    (pre ++ c :: post).find? p = some c := by
  induction pre with
  | nil => simp [List.find?_cons_of_pos _ hc]
  | cons a as ih =>
    rw [List.cons_append,
      List.find?_cons_of_neg _ (by simp [hpre a (by simp)])]
    exact ih fun x hx => hpre x (by simp [hx])

theorem create_config_absent (c : Config) (configs : List Config)
    (h : ∀ e ∈ configs, e.id ≠ c.id) :
    create_config c configs = (⟨200, Body.config c⟩, configs ++ [c]) := by
  have hf : configs.find? (fun existing => existing.id == c.id) = none := by
    rw [List.find?_eq_none]
    intro x hx
    simp [h x hx]
  simp [create_config, hf]

theorem create_config_present (c : Config) (configs : List Config)
    (h : ∃ e ∈ configs, e.id = c.id) :
    create_config c configs =
      (⟨409, Body.error (ErrorResponse.Conflict ("id = " ++ toString c.id))⟩,
        configs) := by
  obtain ⟨e, he, heq⟩ := h
  have hsome : (configs.find? (fun existing => existing.id == c.id)).isSome := by
    rw [List.find?_isSome]
    exact ⟨e, he, by simp [heq]⟩
  obtain ⟨e2, he2⟩ := Option.isSome_iff_exists.mp hsome
  have he2id : e2.id = c.id := by simpa using List.find?_some he2
  simp [create_config, he2, he2id]

theorem delete_config_absent (id : Int) (configs : List Config)
    (h : ∀ c ∈ configs, c.id ≠ id) :
    delete_config id configs =
      (⟨404, Body.error (ErrorResponse.NotFound ("id = " ++ toString id))⟩,
        configs) := by
  have hfull : configs.filter (fun config => config.id != id) = configs :=
    List.filter_eq_self.mpr fun a ha => by simp [h a ha]
  simp [delete_config, hfull]

theorem delete_config_present (id : Int) (configs : List Config)
    (h : ∃ c ∈ configs, c.id = id) :
    delete_config id configs =
      (⟨200, Body.empty⟩, configs.filter (fun config => config.id != id)) := by
  obtain ⟨c, hc, hcid⟩ := h
  have hne : (configs.filter (fun config => config.id != id)).length ≠
      configs.length := by
    intro heq
    have := List.filter_length_eq_length.mp heq c hc
    simp [hcid] at this
  simp [delete_config, hne]

theorem applyPatch_none (req : ConfigUpdateRequest) (c : Config)
    (h : req.value = none) : applyPatch req c = c := by
  simp [applyPatch, h]

theorem applyPatch_some (req : ConfigUpdateRequest) (c : Config) (v : String)
    (h : req.value = some v) : applyPatch req c = { c with value := v } := by
  simp [applyPatch, h]

theorem applyPatch_id (req : ConfigUpdateRequest) (c : Config) :
    (applyPatch req c).id = c.id := by
  cases hv : req.value <;> simp [applyPatch, hv]

theorem updateFirst_absent (id : Int) (req : ConfigUpdateRequest)
    (configs : List Config) (h : ∀ c ∈ configs, c.id ≠ id) :
    updateFirst id req configs = none := by
  induction configs with
  | nil => rfl
  | cons c rest ih =>
    have hc : c.id ≠ id := h c (by simp)
    simp [updateFirst, hc, ih fun x hx => h x (by simp [hx])]

theorem updateFirst_found (id : Int) (req : ConfigUpdateRequest)
    (pre : List Config) (c : Config) (post : List Config)
    (hpre : ∀ x ∈ pre, x.id ≠ id) (hc : c.id = id) :
    updateFirst id req (pre ++ c :: post) =
      some (pre ++ applyPatch req c :: post, applyPatch req c) := by
  induction pre with
  | nil => simp [updateFirst, hc]
  | cons a as ih =>
    have ha : a.id ≠ id := hpre a (by simp)
    simp [updateFirst, ha, ih fun x hx => hpre x (by simp [hx])]

theorem updateFirst_map_id (id : Int) (req : ConfigUpdateRequest) :
    ∀ (configs res : List Config) (u : Config),
      updateFirst id req configs = some (res, u) →
      res.map Config.id = configs.map Config.id := by
  intro configs
  induction configs with
  | nil => intro res u h; simp [updateFirst] at h
  | cons c rest ih =>
    intro res u h
    by_cases hc : c.id = id
    · simp [updateFirst, hc] at h
      obtain ⟨h1, h2⟩ := h
      subst h1
      simp [applyPatch_id]
    · simp [updateFirst, hc] at h
      cases hrest : updateFirst id req rest with
      | none => rw [hrest] at h; simp at h
      | some p =>
        rw [hrest] at h
        obtain ⟨res2, u2⟩ := p
        simp at h
        obtain ⟨h1, h2⟩ := h
        subst h1
        simp [ih res2 u2 hrest]

theorem updateFirst_secret_irrelevant (id : Int) (v : Option String)
    (s1 s2 : Option Bool) (configs : List Config) :
    updateFirst id ⟨v, s1⟩ configs = updateFirst id ⟨v, s2⟩ configs := by
  induction configs with
  | nil => rfl
  | cons c rest ih =>
    cases v <;> simp [updateFirst, applyPatch, ih]

theorem applyOp_keeps_nodup (configs : List Config) (op : Op)
    (h : (configs.map Config.id).Nodup) :
    ((applyOp configs op).map Config.id).Nodup := by
  cases op with
  | create c =>
    by_cases hc : ∃ e ∈ configs, e.id = c.id
    · rw [applyOp, create_config_present c configs hc]
      exact h
    · push_neg at hc
      rw [applyOp, create_config_absent c configs hc]
      simp only [List.map_append, List.map_cons, List.map_nil, List.nodup_append]
      refine ⟨h, List.nodup_singleton _, ?_⟩
      intro a ha hb
      simp only [List.mem_singleton] at hb
      subst hb
      obtain ⟨e, he, heid⟩ := List.mem_map.mp ha
      exact hc e he heid
  | update i r =>
    cases hu : updateFirst i r configs with
    | none => simpa [applyOp, update_config, hu] using h
    | some p =>
      obtain ⟨res, u⟩ := p
      have hmap := updateFirst_map_id i r configs res u hu
      simpa [applyOp, update_config, hu, hmap] using h
  | delete i =>
    by_cases hlen :
        (configs.filter (fun config => config.id != i)).length = configs.length
    · simpa [applyOp, delete_config, hlen] using h
    · have hsub :
          List.Sublist
            ((configs.filter (fun config => config.id != i)).map Config.id)
            (configs.map Config.id) :=
        (List.filter_sublist configs).map Config.id
      simpa [applyOp, delete_config, hlen] using List.Nodup.sublist hsub h

/-- C1: starting from the empty store, every sequence of Create, Update and
Delete requests leaves the stored ids pairwise distinct — at most one Config
per id value exists at any time. -/
theorem runOps_ids_nodup (ops : List Op) : ((runOps ops).map Config.id).Nodup := by
  suffices h : ∀ configs : List Config, (configs.map Config.id).Nodup →
      ((ops.foldl applyOp configs).map Config.id).Nodup from h [] (by simp)
  induction ops with
  | nil => intro configs h; simpa using h
  | cons op rest ih =>
    intro configs h
    rw [List.foldl_cons]
    exact ih (applyOp configs op) (applyOp_keeps_nodup configs op h)

/-- C2: when some stored record already has the posted id, create_config
replies 409 Conflict with detail `id = <n>` and the stored sequence is exactly
what it was before the call. -/
theorem create_conflict_spec (c : Config) (configs : List Config)
    (h : ∃ e ∈ configs, e.id = c.id) :
    (create_config c configs).1 =
      ⟨409, Body.error (ErrorResponse.Conflict ("id = " ++ toString c.id))⟩ ∧
    (create_config c configs).2 = configs := by
  rw [create_config_present c configs h]
  exact ⟨rfl, rfl⟩

theorem create_conflict_spec_witness :
    (create_config ⟨1, "a", "b", "c"⟩ [⟨1, "d", "k", "v"⟩]).1 =
      ⟨409, Body.error (ErrorResponse.Conflict ("id = " ++ toString (1 : Int)))⟩ ∧
    (create_config ⟨1, "a", "b", "c"⟩ [⟨1, "d", "k", "v"⟩]).2 =
      [⟨1, "d", "k", "v"⟩] :=
  create_conflict_spec ⟨1, "a", "b", "c"⟩ [⟨1, "d", "k", "v"⟩]
    ⟨⟨1, "d", "k", "v"⟩, by simp, rfl⟩

/-- C3: under the enforcing gate, an absent apikey header yields an immediate
401 with detail `missing api key`, a mismatched header yields an immediate 401
with detail `incorrect api key`, and a matching header forwards the request to
the downstream handler; under the log-only gate every request is forwarded. -/
theorem apiKeyGateCall_spec (key : String) :
    apiKeyGateCall false none =
      GateOutcome.rejected
        ⟨401, Body.error (ErrorResponse.Unauthorized "missing api key")⟩ ∧
    (key ≠ API_KEY →
      apiKeyGateCall false (some key) =
        GateOutcome.rejected
          ⟨401, Body.error (ErrorResponse.Unauthorized "incorrect api key")⟩) ∧
    apiKeyGateCall false (some API_KEY) = GateOutcome.forwarded ∧
    (∀ header : Option String,
      apiKeyGateCall true header = GateOutcome.forwarded) := by
  refine ⟨rfl, ?_, ?_, ?_⟩
  · intro h
    simp [apiKeyGateCall, h]
  · simp [apiKeyGateCall]
  · intro header
    cases header <;> simp [apiKeyGateCall]

theorem apiKeyGateCall_spec_witness :
    apiKeyGateCall false (some "wrong") =
      GateOutcome.rejected
        ⟨401, Body.error (ErrorResponse.Unauthorized "incorrect api key")⟩ :=
  (apiKeyGateCall_spec "wrong").2.1 (by decide)

/-- C4: when the store holds a record with the requested id, update_config with
a present value overwrites exactly the value field of the first such record
(id, desc and key are untouched) and returns the updated record with 200; with
an absent value the store is unchanged and the record is returned as is; the
secret flag never changes the outcome; when no record matches, the reply is
404 NotFound with detail `id = <n>` and the store is unchanged. -/
theorem update_config_spec (id : Int) (req : ConfigUpdateRequest)
    (configs : List Config) :
    ((∀ c ∈ configs, c.id ≠ id) →
      update_config id req configs =
        (⟨404, Body.error (ErrorResponse.NotFound ("id = " ++ toString id))⟩,
          configs)) ∧
    (∀ pre c post, configs = pre ++ c :: post → (∀ x ∈ pre, x.id ≠ id) →
      c.id = id →
      (∀ v, req.value = some v →
        update_config id req configs =
          (⟨200, Body.config { c with value := v }⟩,
            pre ++ { c with value := v } :: post)) ∧
      (req.value = none →
        update_config id req configs = (⟨200, Body.config c⟩, configs))) ∧
    (∀ s1 s2 : Option Bool,
      update_config id ⟨req.value, s1⟩ configs =
        update_config id ⟨req.value, s2⟩ configs) := by
  refine ⟨?_, ?_, ?_⟩
  · intro h
    simp [update_config, updateFirst_absent id req configs h]
  · intro pre c post hdecomp hpre hc
    constructor
    · intro v hv
      subst hdecomp
      simp [update_config, updateFirst_found id req pre c post hpre hc,
        applyPatch_some req c v hv]
    · intro hv
      subst hdecomp
      simp [update_config, updateFirst_found id req pre c post hpre hc,
        applyPatch_none req c hv]
  · intro s1 s2
    simp only [update_config,
      updateFirst_secret_irrelevant id req.value s1 s2 configs]

theorem update_config_spec_witness :
    update_config 1 ⟨some "new", none⟩ [⟨1, "d", "k", "old"⟩] =
      (⟨200, Body.config ⟨1, "d", "k", "new"⟩⟩, [⟨1, "d", "k", "new"⟩]) :=
  ((update_config_spec 1 ⟨some "new", none⟩ [⟨1, "d", "k", "old"⟩]).2.1
    [] ⟨1, "d", "k", "old"⟩ [] rfl (by simp) rfl).1 "new" rfl

/-- C5: delete_config answers 404 NotFound with detail `id = <n>` and leaves
the store untouched exactly when no stored record has the requested id (the
filtered sequence has the same length); when some record matches, the stored
sequence is replaced by the filtered one and the reply is an empty 200. -/
theorem delete_config_spec (id : Int) (configs : List Config) :
    ((∀ c ∈ configs, c.id ≠ id) →
      delete_config id configs =
        (⟨404, Body.error (ErrorResponse.NotFound ("id = " ++ toString id))⟩,
          configs)) ∧
    ((∃ c ∈ configs, c.id = id) →
      delete_config id configs =
        (⟨200, Body.empty⟩, configs.filter (fun config => config.id != id))) :=
  ⟨delete_config_absent id configs, delete_config_present id configs⟩

theorem delete_config_spec_witness :
    delete_config 1 [⟨1, "d", "k", "v"⟩] = (⟨200, Body.empty⟩, []) :=
  (delete_config_spec 1 [⟨1, "d", "k", "v"⟩]).2 ⟨⟨1, "d", "k", "v"⟩, by simp, rfl⟩

/-- C6: for every case folding `low` modelling `str::to_lowercase` (any
function with `low "" = ""`, as the real one has), search_configs replies 200
with exactly the records whose folded value contains the folded query, in
insertion order (the result is a sublist of the store); the empty query
returns every record, and the store contents are unchanged by a search.
Instantiating `low` at the Unicode folding the standard library performs
yields the program. -/
theorem search_configs_spec (low : String → String) (hlow : low "" = "")
    (s : String) (configs : List Config) :
    ∃ res : List Config,
      search_configs low s configs = ⟨200, Body.configs res⟩ ∧
      List.Sublist res configs ∧
      (∀ c ∈ res, stringContains (low c.value) (low s) = true) ∧
      (∀ c ∈ configs,
        stringContains (low c.value) (low s) = true → c ∈ res) ∧
      (s = "" → res = configs) ∧
      (handleRead (ReadRequest.search s) configs).2 = configs := by
  refine ⟨configs.filter (fun config =>
      stringContains (low config.value) (low s)),
    rfl, List.filter_sublist configs, ?_, ?_, ?_, rfl⟩
  · intro c hc
    exact (List.mem_filter.mp hc).2
  · intro c hc hm
    exact List.mem_filter.mpr ⟨hc, hm⟩
  · intro hs
    subst hs
    rw [hlow]
    refine List.filter_eq_self.mpr fun a ha => ?_
    simp [stringContains, charsContain_nil_needle]

theorem search_configs_spec_witness :
    ∃ res : List Config,
      search_configs toLowercase "TOP" [⟨1, "d", "k", "Top Shelf"⟩] =
        ⟨200, Body.configs res⟩ ∧
      List.Sublist res [⟨1, "d", "k", "Top Shelf"⟩] ∧
      (∀ c ∈ res,
        stringContains (toLowercase c.value) (toLowercase "TOP") = true) ∧
      (∀ c ∈ ([⟨1, "d", "k", "Top Shelf"⟩] : List Config),
        stringContains (toLowercase c.value) (toLowercase "TOP") = true →
          c ∈ res) ∧
      ("TOP" = "" → res = [⟨1, "d", "k", "Top Shelf"⟩]) ∧
      (handleRead (ReadRequest.search "TOP") [⟨1, "d", "k", "Top Shelf"⟩]).2 =
        [⟨1, "d", "k", "Top Shelf"⟩] :=
  search_configs_spec toLowercase (by decide) "TOP" [⟨1, "d", "k", "Top Shelf"⟩]

/-- C7: get_config_by_id replies 200 with the first stored record whose id
matches, and 404 NotFound with detail `id = <n>` when no record matches. -/
theorem get_config_by_id_spec (id : Int) (configs : List Config) :
    (∀ pre c post, configs = pre ++ c :: post → (∀ x ∈ pre, x.id ≠ id) →
      c.id = id → get_config_by_id id configs = ⟨200, Body.config c⟩) ∧
    ((∀ c ∈ configs, c.id ≠ id) →
      get_config_by_id id configs =
        ⟨404, Body.error (ErrorResponse.NotFound ("id = " ++ toString id))⟩) := by
  constructor
  · intro pre c post hdecomp hpre hc
    subst hdecomp
    have hfind : (pre ++ c :: post).find? (fun config => config.id == id) =
        some c :=
      find_first_in_append _ pre c post (fun x hx => by simp [hpre x hx])
        (by simp [hc])
    simp [get_config_by_id, hfind]
  · intro h
    have hfind : configs.find? (fun config => config.id == id) = none := by
      rw [List.find?_eq_none]
      intro x hx
      simp [h x hx]
    simp [get_config_by_id, hfind]

theorem get_config_by_id_spec_witness :
    get_config_by_id 99 [] =
      ⟨404, Body.error (ErrorResponse.NotFound ("id = " ++ toString (99 : Int)))⟩ :=
  (get_config_by_id_spec 99 []).2 (by simp)

/-- C8: when no stored record has the posted id, create_config appends the new
record at the end of the stored sequence, keeping every existing record in
place, and replies 200 with the created record. -/
theorem create_append_spec (c : Config) (configs : List Config)
    (h : ∀ e ∈ configs, e.id ≠ c.id) :
    create_config c configs = (⟨200, Body.config c⟩, configs ++ [c]) :=
  create_config_absent c configs h

theorem create_append_spec_witness :
    create_config ⟨2, "d2", "k2", "v2"⟩ [⟨1, "d", "k", "v"⟩] =
      (⟨200, Body.config ⟨2, "d2", "k2", "v2"⟩⟩,
        [⟨1, "d", "k", "v"⟩, ⟨2, "d2", "k2", "v2"⟩]) :=
  create_append_spec ⟨2, "d2", "k2", "v2"⟩ [⟨1, "d", "k", "v"⟩] (by simp)

/-- C9: the read-only handlers (list, get-by-id, search) leave the stored
sequence exactly as it was, and the list handler replies 200 with a copy of
every stored record in insertion order. -/
theorem handleRead_frame_spec (req : ReadRequest) (configs : List Config) :
    (handleRead req configs).2 = configs ∧
    handleRead ReadRequest.list configs =
      (⟨200, Body.configs configs⟩, configs) := by
  refine ⟨?_, rfl⟩
  cases req <;> rfl

/-- C10: a successful delete (some record matches the requested id) leaves no
record with that id in the store, even if several matched, and the surviving
records keep their relative order (the new store is a sublist of the old with
every non-matching record still present). -/
theorem delete_config_scrub (id : Int) (configs : List Config)
    (h : ∃ c ∈ configs, c.id = id) :
    (∀ c ∈ (delete_config id configs).2, c.id ≠ id) ∧
    List.Sublist (delete_config id configs).2 configs ∧
    (∀ c ∈ configs, c.id ≠ id → c ∈ (delete_config id configs).2) := by
  rw [delete_config_present id configs h]
  dsimp only
  refine ⟨?_, List.filter_sublist configs, ?_⟩
  · intro c hc
    have := (List.mem_filter.mp hc).2
    simpa using this
  · intro c hc hne
    exact List.mem_filter.mpr ⟨hc, by simpa using hne⟩

theorem delete_config_scrub_witness :
    (∀ c ∈ (delete_config 1 [⟨1, "d", "k", "v"⟩, ⟨2, "d2", "k2", "v2"⟩,
        ⟨1, "x", "y", "z"⟩]).2, c.id ≠ 1) ∧
    List.Sublist (delete_config 1 [⟨1, "d", "k", "v"⟩, ⟨2, "d2", "k2", "v2"⟩,
        ⟨1, "x", "y", "z"⟩]).2
      [⟨1, "d", "k", "v"⟩, ⟨2, "d2", "k2", "v2"⟩, ⟨1, "x", "y", "z"⟩] ∧
    (∀ c ∈ ([⟨1, "d", "k", "v"⟩, ⟨2, "d2", "k2", "v2"⟩,
        ⟨1, "x", "y", "z"⟩] : List Config), c.id ≠ 1 →
      c ∈ (delete_config 1 [⟨1, "d", "k", "v"⟩, ⟨2, "d2", "k2", "v2"⟩,
        ⟨1, "x", "y", "z"⟩]).2) :=
  delete_config_scrub 1
    [⟨1, "d", "k", "v"⟩, ⟨2, "d2", "k2", "v2"⟩, ⟨1, "x", "y", "z"⟩]
    ⟨⟨1, "d", "k", "v"⟩, by simp, rfl⟩

end ConfigService
